import Mathlib

/-!
Verification of the `listfilter` Go package (HayoVanLoon/go-listfilter).

The embedding models Go strings as lists of bytes (`List Nat`, each < 256),
mirroring Go's byte-indexed string accesses (`s[i]`), `utf8.DecodeRuneInString`,
and the relevant `unicode` predicates.  All parser functions are translated
from the source file that defines `parser.Parse`, `parser.parseConditions`,
`parseSeparator`, `spaceOrNonSpace`, `parser.parseCondition`,
`parser.parseFullName`, `parser.parseNameParts`, `parser.parseName`,
`parser.parseOperator`, `parser.parseValue`, `parser.parseNormalValue`,
`parser.parseQuotedValue`, `parser.parseQuotesEscaped`, the `filter`
accessors (`Get`, `GetFirst`, `GetLast`, `First`, `Conditions`) and
`condition.BoolValue`.

The embedded parser models the default configuration `NewParser()` (operator
set passed explicitly; the snakeCase/camelCase options are off, so the two
dead branches of `parseName` are omitted).

Pointer semantics: `parseConditions` is the only place that creates
`*condition` pointers, and every pointer it creates is `&cond` — the address
of the single local variable `cond` that is reassigned on each loop
iteration.  Hence at most one heap cell exists per parse; a `*condition`
value is modelled as `Option Unit` (`none` = nil, `some ()` = the cell), and
the parse result carries the cell's final contents so the pointer can be
dereferenced (`condAnd`, `condOr`).

Loops are modelled with an explicit fuel argument that strictly exceeds the
number of remaining bytes; each Go loop iteration advances the byte cursor by
at least one, so the fuel-exhaustion branches are unreachable for the fuel
supplied by the wrappers.
-/

/-- A Go string: a list of bytes. -/
abbrev GoString := List Nat

/-- Byte list of an ASCII Lean string literal (used to write concrete inputs
and the string constants appearing in the source). -/
def ascii (s : String) : GoString := s.toList.map Char.toNat

/-- Go slice expression s[a:b]. -/
def gosub (s : GoString) (a b : Nat) : GoString := (s.drop a).take (b - a)

/-- Go slice expression s[a:]. -/
def gosuffix (s : GoString) (a : Nat) : GoString := s.drop a

/-- Go byte access s[i] (all uses in the source are guarded by i < len(s)). -/
def goget (s : GoString) (i : Nat) : Nat := s.getD i 0

/-- unicode.ReplacementChar, returned by the UTF-8 decoder on malformed
input. -/
def runeError : Nat := 0xFFFD

/-- utf8.DecodeRuneInString: returns the first rune of the byte string and
its width in bytes.  Empty input gives (RuneError, 0); malformed input
(stray continuation byte, overlong encoding, surrogate, out-of-range, or
truncated sequence) gives (RuneError, 1). -/
def decodeRune : GoString → Nat × Nat
  | [] => (runeError, 0)
  | b0 :: rest =>
    if b0 < 0x80 then (b0, 1)
    else if b0 < 0xC2 || 0xF4 < b0 then (runeError, 1)
    else if b0 ≤ 0xDF then
      match rest with
      | b1 :: _ =>
        if 0x80 ≤ b1 && b1 ≤ 0xBF then ((b0 - 0xC0) * 0x40 + (b1 - 0x80), 2)
        else (runeError, 1)
      | [] => (runeError, 1)
    else if b0 ≤ 0xEF then
      match rest with
      | b1 :: b2 :: _ =>
        if (if b0 = 0xE0 then 0xA0 else 0x80) ≤ b1 &&
            b1 ≤ (if b0 = 0xED then 0x9F else 0xBF) &&
            0x80 ≤ b2 && b2 ≤ 0xBF then
          ((b0 - 0xE0) * 0x1000 + (b1 - 0x80) * 0x40 + (b2 - 0x80), 3)
        else (runeError, 1)
      | _ => (runeError, 1)
    else
      match rest with
      | b1 :: b2 :: b3 :: _ =>
        if (if b0 = 0xF0 then 0x90 else 0x80) ≤ b1 &&
            b1 ≤ (if b0 = 0xF4 then 0x8F else 0xBF) &&
            0x80 ≤ b2 && b2 ≤ 0xBF && 0x80 ≤ b3 && b3 ≤ 0xBF then
          ((b0 - 0xF0) * 0x40000 + (b1 - 0x80) * 0x1000 + (b2 - 0x80) * 0x40 + (b3 - 0x80), 4)
        else (runeError, 1)
      | _ => (runeError, 1)

/-- UTF-8 encoding of a code point, as written by strings.Builder.WriteRune
for the values that occur here (valid scalars produced by the decoder, or
RuneError). -/
def runeEncode (c : Nat) : GoString :=
  if c < 0x80 then [c]
  else if c < 0x800 then [0xC0 + c / 0x40, 0x80 + c % 0x40]
  else if c < 0x10000 then [0xE0 + c / 0x1000, 0x80 + c / 0x40 % 0x40, 0x80 + c % 0x40]
  else [0xF0 + c / 0x40000, 0x80 + c / 0x1000 % 0x40, 0x80 + c / 0x40 % 0x40, 0x80 + c % 0x40]

/-- unicode.IsSpace.  Go's White_Space set in full: this table is complete
over all runes, so the model is exact at every call site. -/
def isSpaceRune (r : Nat) : Bool :=
  r = 9 || r = 10 || r = 11 || r = 12 || r = 13 || r = 32 ||
  r = 0x85 || r = 0xA0 || r = 0x1680 ||
  (0x2000 ≤ r && r ≤ 0x200A) || r = 0x2028 || r = 0x2029 ||
  r = 0x202F || r = 0x205F || r = 0x3000

/-- unicode.IsLetter restricted to code points below 0x100.  `parseName`
only applies unicode.IsLetter to `rune(s[i])` where `s[i]` is a single byte,
so every argument is < 0x100 and this Latin-1 table is exact at every call
site: ASCII letters plus the Latin-1 letters 0xAA, 0xB5, 0xBA, 0xC0-0xD6,
0xD8-0xF6, 0xF8-0xFF. -/
def isLetterLatin1 (r : Nat) : Bool :=
  (0x41 ≤ r && r ≤ 0x5A) || (0x61 ≤ r && r ≤ 0x7A) ||
  r = 0xAA || r = 0xB5 || r = 0xBA ||
  (0xC0 ≤ r && r ≤ 0xD6) || (0xD8 ≤ r && r ≤ 0xF6) || (0xF8 ≤ r && r ≤ 0xFF)

/-- unicode.IsNumber restricted to code points below 0x100 (exact for the
byte-widened arguments `parseName` passes): ASCII digits plus the Latin-1
number signs 0xB2, 0xB3, 0xB9, 0xBC, 0xBD, 0xBE. -/
def isNumberLatin1 (r : Nat) : Bool :=
  (0x30 ≤ r && r ≤ 0x39) || r = 0xB2 || r = 0xB3 || r = 0xB9 ||
  (0xBC ≤ r && r ≤ 0xBE)

/-- The `parseError` struct: message, position, and the unparsable suffix. -/
structure GoParseError where
  message : String
  position : Nat
  unparsable : GoString
deriving Repr, DecidableEq

/-- Result of a parsing routine: the Go `(value, i, err)` triple with
`err != nil` short-circuiting every caller, so an `Except` is observationally
faithful. -/
abbrev PRes (α : Type) := Except GoParseError α

/-- Loop body of `spaceOrNonSpace`, phrased on the remaining bytes: the
number of bytes consumed while the decoded runes satisfy
`unicode.IsSpace  = space`.  The fuel strictly exceeds the remaining byte
count supplied by the wrapper, and each iteration consumes at least one
byte, so the fuel-exhaustion branch is unreachable. -/
def sonsConsumed (space : Bool) : Nat → GoString → Nat
  | 0, _ => 0
  | fuel + 1, bs =>
    if bs.isEmpty then 0
    else
      let rw := decodeRune bs
      if isSpaceRune rw.1 = space then rw.2 + sonsConsumed space fuel (bs.drop rw.2)
      else 0

/-- spaceOrNonSpace: advance from `start` while runes are spaces
(`space = true`) or non-spaces (`space = false`); returns the stop index. -/
def spaceOrNonSpace (s : GoString) (start : Nat) (space : Bool) : Nat :=
  start + sonsConsumed space (s.length + 1) (s.drop start)

/-- Scan loop of `parseName`: advance over letters, digits and underscores
(byte-widened rune tests, exactly as the source applies them). -/
def nameScan (s : GoString) : Nat → Nat → Nat
  | 0, i => i
  | fuel + 1, i =>
    if i < s.length then
      if isLetterLatin1 (goget s i) then nameScan s fuel (i + 1)
      else if isNumberLatin1 (goget s i) then nameScan s fuel (i + 1)
      else if goget s i = 95 then nameScan s fuel (i + 1)
      else i
    else i

/-- parser.parseName (default parser: the snakeCase/camelCase branches are
off). -/
def parseName (s : GoString) (start : Nat) : PRes (GoString × Nat) :=
  if s.length = start then
    .error ⟨"unexpected end of string, expected a name", start, gosuffix s start⟩
  else if ¬ isLetterLatin1 (goget s start) then
    .error ⟨"name must start with letter", start, gosuffix s start⟩
  else
    let i := nameScan s (s.length + 1) (start + 1)
    .ok (gosub s start i, i)

/-- Loop of `parseNameParts`: while the next byte is '.', consume it and
parse another name segment. -/
def namePartsLoop (s : GoString) : Nat → List GoString → Nat → PRes (List GoString × Nat)
  | 0, parts, i => .ok (parts, i)
  | fuel + 1, parts, i =>
    if i < s.length ∧ goget s i = 46 then
      match parseName s (i + 1) with
      | .error e => .error e
      | .ok (part, j) => namePartsLoop s fuel (parts ++ [part]) j
    else .ok (parts, i)

/-- parser.parseNameParts. -/
def parseNameParts (s : GoString) (start : Nat) : PRes (List GoString × Nat) :=
  match parseName s start with
  | .error e => .error e
  | .ok (part, i) => namePartsLoop s (s.length + 1) [part] i

/-- strings.Join(parts, ".") as used by parseFullName. -/
def joinDots : List GoString → GoString
  | [] => []
  | [p] => p
  | p :: q :: rest => p ++ [46] ++ joinDots (q :: rest)

/-- parser.parseFullName. -/
def parseFullName (s : GoString) (start : Nat) : PRes (GoString × List GoString × Nat) :=
  match parseNameParts s start with
  | .error e => .error e
  | .ok (parts, i) => .ok (joinDots parts, parts, i)

/-- Scan loop of `parseOperator`: at each step extend the scanned slice
s[start:i] by one byte and test membership in the registered operator set;
return the first member found. -/
def opScan (ops : List GoString) (s : GoString) (start : Nat) : Nat → Nat → PRes (GoString × Nat)
  | 0, i => .error ⟨"expected operator", start, gosub s start i⟩
  | fuel + 1, i =>
    if i < s.length then
      let v := gosub s start (i + 1)
      if v ∈ ops then .ok (v, i + 1)
      else opScan ops s start fuel (i + 1)
    else .error ⟨"expected operator", start, gosub s start i⟩

/-- parser.parseOperator (the operator set of the parser is passed
explicitly; NewParser() registers "=" and "!="). -/
def parseOperator (ops : List GoString) (s : GoString) (start : Nat) : PRes (GoString × Nat) :=
  opScan ops s start (s.length + 1 - start) start

/-- parser.parseNormalValue: consume up to the next whitespace rune or the
end of input. -/
def parseNormalValue (s : GoString) (start : Nat) : PRes (GoString × Nat) :=
  let i := spaceOrNonSpace s start false
  .ok (gosub s start i, i)

/-- Loop of `parseQuotesEscaped`: rune-by-rune with an escape flag; inside an
escape, a quote or backslash is emitted bare while any other rune gets the
backslash re-emitted in front of it; an unescaped quote stops the scan. -/
def quotesEscapedLoop (s : GoString) : Nat → Nat → Bool → GoString → GoString × Nat
  | 0, i, _, acc => (acc, i)
  | fuel + 1, i, escape, acc =>
    if i < s.length then
      let rw := decodeRune (gosuffix s i)
      if escape then
        let acc' := if rw.1 = 34 ∨ rw.1 = 92 then acc else acc ++ [92]
        quotesEscapedLoop s fuel (i + rw.2) false (acc' ++ runeEncode rw.1)
      else if rw.1 = 34 then (acc, i)
      else if rw.1 = 92 then quotesEscapedLoop s fuel (i + rw.2) true acc
      else quotesEscapedLoop s fuel (i + rw.2) false (acc ++ runeEncode rw.1)
    else (acc, i)

/-- parser.parseQuotesEscaped (never returns an error). -/
def parseQuotesEscaped (s : GoString) (start : Nat) : GoString × Nat :=
  quotesEscapedLoop s (s.length + 1) start false []

/-- parser.parseQuotedValue. -/
def parseQuotedValue (s : GoString) (start : Nat) : PRes (GoString × Nat) :=
  let vi := parseQuotesEscaped s (start + 1)
  if s.length = vi.2 ∨ goget s vi.2 ≠ 34 then
    .error ⟨"unterminated quoted value", start, gosuffix s start⟩
  else
    .ok (vi.1, vi.2 + 1)

/-- parser.parseValue. -/
def parseValue (s : GoString) (start : Nat) : PRes (GoString × Nat) :=
  if start = s.length then .ok ([], start)
  else if goget s start = 34 then parseQuotedValue s start
  else parseNormalValue s start

/-- parseSeparator: nonzero whitespace, then the full non-space token which
must be exactly "AND" or "OR", then nonzero whitespace. -/
def parseSeparator (s : GoString) (start : Nat) : PRes (GoString × Nat) :=
  let i := spaceOrNonSpace s start true
  if i = start then .error ⟨"expected a whitespace", i, gosuffix s i⟩
  else
    let j := spaceOrNonSpace s i false
    let sep := gosub s i j
    if ¬ (sep = ascii "AND" ∨ sep = ascii "OR") then
      .error ⟨"expected a condition separator (AND, OR)", i, gosuffix s i⟩
    else
      let k := spaceOrNonSpace s j true
      if k = j then .error ⟨"expected a whitespace", k, gosuffix s k⟩
      else .ok (sep, k)

/-- The value part of the `condition` struct.  `nextAnd` / `nextOr` are
`*condition` pointers; since the only pointer ever created is the address of
the single loop variable of `parseConditions`, a pointer value is `none`
(nil) or `some ()` (that one cell). -/
structure CondV where
  key : GoString
  keyParts : List GoString
  op : GoString
  stringValue : GoString
  nextAnd : Option Unit
  nextOr : Option Unit
deriving Repr, DecidableEq

/-- parser.parseCondition. -/
def parseCondition (ops : List GoString) (s : GoString) (start : Nat) : PRes (CondV × Nat) :=
  match parseFullName s start with
  | .error e => .error e
  | .ok (key, keyParts, i) =>
    match parseOperator ops s i with
    | .error e => .error e
    | .ok (op, i2) =>
      match parseValue s i2 with
      | .error e => .error e
      | .ok (value, i3) => .ok (⟨key, keyParts, op, value, none, none⟩, i3)

/-- Lookup in the `map[string][]Condition` of the filter (modelled as an
association list; a missing key is Go's nil slice). -/
def mapGet : List (GoString × List CondV) → GoString → Option (List CondV)
  | [], _ => none
  | (k', v) :: rest, k => if k' = k then some v else mapGet rest k

/-- `f.m[k] = append(f.m[k], c)`: append to the key's bucket, creating a
one-element bucket when the key is absent (append to the nil slice). -/
def mapAppend : List (GoString × List CondV) → GoString → CondV → List (GoString × List CondV)
  | [], k, c => [(k, [c])]
  | (k', v) :: rest, k, c =>
    if k' = k then (k', v ++ [c]) :: rest else (k', v) :: mapAppend rest k c

/-- The `filter` struct: the key index and the boxed `first` condition
(an interface value, hence a copy of the struct at the moment of
assignment). -/
structure GoFilter where
  m : List (GoString × List CondV)
  first : Option CondV
deriving Repr, DecidableEq

/-- Loop of parser.parseConditions.  State: `prev` (the running copy of the
previous condition), the filter under construction, and the cursor.  On each
round the separator and the next condition are parsed, `prev`'s AND or OR
pointer is set to `&cond` (the unique cell), `prev` is appended to its
bucket, and `prev` becomes a copy of the new condition.  The returned
`CondV` is the final content of the cell (the last condition parsed, whose
own pointers are nil). -/
def parseConditionsLoop (ops : List GoString) (s : GoString) :
    Nat → CondV → GoFilter → Nat → PRes (GoFilter × CondV × Nat)
  | 0, prev, f, i => .ok ({ f with m := mapAppend f.m prev.key prev }, prev, i)
  | fuel + 1, prev, f, i =>
    if i < s.length then
      match parseSeparator s i with
      | .error e => .error e
      | .ok (sep, i2) =>
        match parseCondition ops s i2 with
        | .error e => .error e
        | .ok (cond, i3) =>
          let prev' := if sep = ascii "AND" then { prev with nextAnd := some () }
                       else { prev with nextOr := some () }
          parseConditionsLoop ops s fuel cond { f with m := mapAppend f.m prev'.key prev' } i3
    else .ok ({ f with m := mapAppend f.m prev.key prev }, prev, i)

/-- parser.parseConditions.  `f.first` is assigned before the loop runs, so
it boxes the first condition with both pointers still nil. -/
def parseConditions (ops : List GoString) (s : GoString) (start : Nat) :
    PRes (GoFilter × CondV × Nat) :=
  match parseCondition ops s start with
  | .error e => .error e
  | .ok (cond, i) =>
    if i = s.length then
      .ok (⟨mapAppend [] cond.key cond, some cond⟩, cond, i)
    else
      parseConditionsLoop ops s (s.length + 1) cond ⟨[], some cond⟩ i

/-- parser.Parse.  The second component is the final content of the unique
pointer cell (absent for the empty input, which allocates no cell). -/
def goParse (ops : List GoString) (s : GoString) : PRes (GoFilter × Option CondV) :=
  if s.length = 0 then .ok (⟨[], none⟩, none)
  else
    match parseConditions ops s 0 with
    | .error e => .error e
    | .ok (f, cell, _) => .ok (f, some cell)

/-- The operator set registered by NewParser(): "=" and "!=". -/
def defaultOps : List GoString := [ascii "=", ascii "!="]

/-- condition.And(): nil pointer gives nil, otherwise the pointed-to cell. -/
def condAnd (cell : Option CondV) (c : CondV) : Option CondV :=
  match c.nextAnd with
  | none => none
  | some _ => cell

/-- condition.Or(). -/
def condOr (cell : Option CondV) (c : CondV) : Option CondV :=
  match c.nextOr with
  | none => none
  | some _ => cell

/-- filter.Get. -/
def filterGet (f : GoFilter) (k : GoString) : Option (List CondV) × Bool :=
  match mapGet f.m k with
  | none => (none, false)
  | some cs => (some cs, true)

/-- filter.GetFirst.  The outer `Option` models the run-time behaviour:
`none` is the index-out-of-range panic `cs[0]` would raise on a non-nil
empty bucket; otherwise the Go return pair. -/
def filterGetFirst (f : GoFilter) (k : GoString) : Option (Option CondV × Bool) :=
  match mapGet f.m k with
  | none => some (none, false)
  | some cs =>
    match cs.head? with
    | some c => some (some c, true)
    | none => none

/-- filter.GetLast (same panic convention as `filterGetFirst`). -/
def filterGetLast (f : GoFilter) (k : GoString) : Option (Option CondV × Bool) :=
  match mapGet f.m k with
  | none => some (none, false)
  | some cs =>
    match cs.getLast? with
    | some c => some (some c, true)
    | none => none

/-- filter.First. -/
def filterFirst (f : GoFilter) : Option CondV := f.first

/-- Loop of filter.Conditions: append the current condition, then follow its
AND link if present, else its OR link, else stop.  In any filter produced by
`goParse` the unique cell's own links are nil, so the walk stops after at
most one pointer dereference; the fuel only bounds the loop formally. -/
def conditionsLoop (cell : Option CondV) : Nat → CondV → List CondV → List CondV
  | 0, c, acc => acc ++ [c]
  | fuel + 1, c, acc =>
    let acc' := acc ++ [c]
    match condAnd cell c with
    | some c2 => conditionsLoop cell fuel c2 acc'
    | none =>
      match condOr cell c with
      | some c2 => conditionsLoop cell fuel c2 acc'
      | none => acc'

/-- filter.Conditions: all conditions reachable from First() by the AND/OR
links, in walk order. -/
def filterConditions (f : GoFilter) (cell : Option CondV) : List CondV :=
  match filterFirst f with
  | none => []
  | some c => conditionsLoop cell (f.m.length + 2) c []

/-- unicode.ToLower as called (indirectly) by condition.BoolValue via
strings.ToLower.  Exact on ASCII; of all code points above 0x7F only
U+0130 and U+212A have an ASCII simple lowercase mapping, and both are
included, so the model agrees with Go on every byte string whenever the
result is compared against an ASCII string such as "true" or "false". -/
def toLowerRune (r : Nat) : Nat :=
  if 0x41 ≤ r ∧ r ≤ 0x5A then r + 32
  else if r = 0x130 then 0x69
  else if r = 0x212A then 0x6B
  else r

/-- strings.ToLower: decode runes, lowercase each, re-encode. -/
def toLowerLoop : Nat → GoString → GoString
  | 0, _ => []
  | fuel + 1, bs =>
    if bs.isEmpty then []
    else
      let rw := decodeRune bs
      runeEncode (toLowerRune rw.1) ++ toLowerLoop fuel (bs.drop rw.2)

/-- strings.ToLower. -/
def stringsToLower (s : GoString) : GoString := toLowerLoop (s.length + 1) s

/-- condition.BoolValue: case-insensitive strict "true"/"false", otherwise
the error text produced by fmt.Errorf. -/
def condBoolValue (c : CondV) : Except GoString Bool :=
  let l := stringsToLower c.stringValue
  if l = ascii "true" then .ok true
  else if l = ascii "false" then .ok false
  else .error (c.stringValue ++ ascii " is not a valid boolean")

/-- A byte admissible inside a name after the first position: letter, digit
or underscore under the byte-widened tests of `parseName`. -/
def nameByte (b : Nat) : Bool := isLetterLatin1 b || isNumberLatin1 b || b = 95

/-- Specification of the quoted-value escape policy, written from the
claim's words: a backslash followed by a quote or a backslash yields the
single literal character; a backslash followed by any other character is
retained literally together with that character; an unescaped quote stops
the scan; a trailing backslash at end of input is dropped. -/
def escSpec : GoString → GoString
  | [] => []
  | 34 :: _ => []
  | [92] => []
  | 92 :: c :: rest => if c = 34 ∨ c = 92 then c :: escSpec rest else 92 :: c :: escSpec rest
  | c :: rest => c :: escSpec rest

/-- Number of bytes the quoted-value scan consumes before stopping (at the
closing quote or the end of input), per the same claim wording. -/
def escStopLen : GoString → Nat
  | [] => 0
  | 34 :: _ => 0
  | [92] => 1
  | 92 :: _ :: rest => 2 + escStopLen rest
  | _ :: rest => 1 + escStopLen rest

/-- Specification of case-insensitive equality against a lowercase-ASCII
word, written from the claim's words: same length, and bytewise each input
byte equals the target byte or is its ASCII uppercase variant. -/
def caseInsensitiveEqAscii : GoString → GoString → Bool
  | [], [] => true
  | b :: vs, c :: ws =>
    (b = c ∨ (0x61 ≤ c ∧ c ≤ 0x7A ∧ b + 32 = c)) && caseInsensitiveEqAscii vs ws
  | _, _ => false

/-- The condition parsed from "foo=bar" (pointers nil). -/
def condFooBar : CondV := ⟨ascii "foo", [ascii "foo"], ascii "=", ascii "bar", none, none⟩

/-- The copy of the foo=bar condition stored in the index of
parse("foo=bar AND bla=vla"): its AND pointer is set (to the unique cell). -/
def condFooBarLinked : CondV := { condFooBar with nextAnd := some () }

/-- The condition parsed from "bla=vla" (pointers nil). -/
def condBlaVla : CondV := ⟨ascii "bla", [ascii "bla"], ascii "=", ascii "vla", none, none⟩

/-- The filter produced by Parse("foo=bar AND bla=vla"): the index holds
both conditions, while `first` boxes the pre-linking copy of foo=bar whose
pointers are still nil. -/
def filterFooBla : GoFilter :=
  ⟨[(ascii "foo", [condFooBarLinked]), (ascii "bla", [condBlaVla])], some condFooBar⟩

/-- The condition parsed from "foo=" (empty value). -/
def condFooEmpty : CondV := ⟨ascii "foo", [ascii "foo"], ascii "=", [], none, none⟩

/-! ## General lemmas about the scanning loops -/

theorem decodeRune_ascii {b : Nat} (bs : GoString) (hb : b < 128) :
    decodeRune (b :: bs) = (b, 1) := by
  simp [decodeRune, hb]

theorem sonsConsumed_ascii (sp : Bool) :
    ∀ (fuel : Nat) (bs : GoString), (∀ b ∈ bs, b < 128) → bs.length < fuel →
      sonsConsumed sp fuel bs = (bs.takeWhile fun b => isSpaceRune b = sp).length := by
  intro fuel
  induction fuel with
  | zero => intro bs _ h; omega
  | succ fuel ih =>
    intro bs hA hlen
    cases bs with
    | nil => simp [sonsConsumed]
    | cons b bs' =>
      have hb : b < 128 := hA b (by simp)
      rw [sonsConsumed]
      simp only [List.isEmpty_cons, decodeRune_ascii bs' hb, List.takeWhile_cons]
      by_cases hsp : isSpaceRune b = sp
      · simp only [hsp, if_pos rfl, if_true, List.drop_succ_cons, List.drop_zero]
        rw [ih bs' (fun x hx => hA x (by simp [hx])) (by simpa using Nat.lt_of_succ_lt_succ hlen)]
        simp [Nat.add_comm]
      · simp [hsp]

theorem spaceOrNonSpace_ascii (s : GoString) (start : Nat) (sp : Bool)
    (hA : ∀ b ∈ s.drop start, b < 128) :
    spaceOrNonSpace s start sp =
      start + ((s.drop start).takeWhile fun b => isSpaceRune b = sp).length := by
  unfold spaceOrNonSpace
  rw [sonsConsumed_ascii sp (s.length + 1) (s.drop start) hA]
  have := List.length_drop start s
  omega

theorem takeWhile_append_all {w l : List Nat} {p : Nat → Bool} (h : ∀ b ∈ w, p b) :
    (w ++ l).takeWhile p = w ++ l.takeWhile p := by
  induction w with
  | nil => rfl
  | cons a w ih =>
    have ha : p a := h a (List.mem_cons_self a w)
    have ihw := ih fun b hb => h b (List.mem_cons_of_mem a hb)
    simp [List.takeWhile_cons, ha, ihw]

theorem takeWhile_cons_neg {b : Nat} {l : List Nat} {p : Nat → Bool} (h : ¬ p b) :
    (b :: l).takeWhile p = [] := by
  simp [List.takeWhile_cons, h]

/-! ## Claim theorems -/

/-- Claim C8: Parse applied to the empty string succeeds with a valid empty
Filter: no error, zero conditions, every key lookup reports not-found, and
First is absent. -/
theorem c8_parse_empty_string (ops : List GoString) (k : GoString) :
    goParse ops [] = .ok (⟨[], none⟩, none) ∧
    filterGet ⟨[], none⟩ k = (none, false) ∧
    filterGetFirst ⟨[], none⟩ k = some (none, false) ∧
    filterGetLast ⟨[], none⟩ k = some (none, false) ∧
    filterFirst ⟨[], none⟩ = none ∧
    filterConditions ⟨[], none⟩ none = [] ∧
    ((⟨[], none⟩ : GoFilter).m.map fun e => e.2.length).sum = 0 :=
  ⟨rfl, rfl, rfl, rfl, rfl, rfl, rfl⟩

/-- Claim C1 (evaluation at the failing input): for
parse("foo=bar AND bla=vla") the parse succeeds and the index holds both
conditions, but the `first` field boxed a copy of the foo=bar condition
before its AND pointer was assigned, so First() has no and()-successor and
the ordered traversal Conditions() returns only the foo=bar condition —
length 1 instead of the 2 top-level conditions of the input. -/
theorem c1_traversal_loses_conditions :
    goParse defaultOps (ascii "foo=bar AND bla=vla") = .ok (filterFooBla, some condBlaVla) ∧
    filterFirst filterFooBla = some condFooBar ∧
    condAnd (some condBlaVla) condFooBar = none ∧
    filterConditions filterFooBla (some condBlaVla) = [condFooBar] ∧
    (filterConditions filterFooBla (some condBlaVla)).length = 1 ∧
    (filterFooBla.m.map fun e => e.2.length).sum = 2 :=
  ⟨rfl, rfl, rfl, rfl, rfl, rfl⟩

/-- Claim C2 (evaluation at the failing input): after
parse("foo=bar AND bla=vla") the key index contains the bla=vla condition,
but the AND/OR chain starting at First() is just the single pre-linking
copy of foo=bar, so the index and the chain do not contain the same
condition set. -/
theorem c2_index_chain_disagree :
    goParse defaultOps (ascii "foo=bar AND bla=vla") = .ok (filterFooBla, some condBlaVla) ∧
    mapGet filterFooBla.m (ascii "bla") = some [condBlaVla] ∧
    filterConditions filterFooBla (some condBlaVla) = [condFooBar] ∧
    condBlaVla ∉ filterConditions filterFooBla (some condBlaVla) :=
  ⟨rfl, rfl, rfl, by decide⟩

theorem mapGet_mem {m : List (GoString × List CondV)} {k : GoString} {cs : List CondV}
    (h : mapGet m k = some cs) : (k, cs) ∈ m := by
  induction m with
  | nil => simp [mapGet] at h
  | cons e rest ih =>
    obtain ⟨k', v⟩ := e
    by_cases hk : k' = k
    · subst hk
      simp [mapGet] at h
      simp [h]
    · simp only [mapGet, if_neg hk] at h
      exact List.mem_cons_of_mem _ (ih h)

theorem mapAppend_nonempty {m : List (GoString × List CondV)} {k : GoString} {c : CondV}
    (h : ∀ e ∈ m, e.2 ≠ []) : ∀ e ∈ mapAppend m k c, e.2 ≠ [] := by
  induction m with
  | nil => simp [mapAppend]
  | cons e₀ rest ih =>
    obtain ⟨k', v⟩ := e₀
    intro e he
    by_cases hk : k' = k
    · simp only [mapAppend, if_pos hk] at he
      rcases List.mem_cons.mp he with h1 | h2
      · subst h1; simp
      · exact h e (List.mem_cons_of_mem _ h2)
    · simp only [mapAppend, if_neg hk] at he
      rcases List.mem_cons.mp he with h1 | h2
      · subst h1; exact h (k', v) (List.mem_cons_self _ _)
      · exact ih (fun e' he' => h e' (List.mem_cons_of_mem _ he')) e h2

theorem parseConditionsLoop_nonempty (ops : List GoString) (s : GoString) :
    ∀ (fuel : Nat) (prev : CondV) (f : GoFilter) (i : Nat)
      (f' : GoFilter) (cell : CondV) (i' : Nat),
      (∀ e ∈ f.m, e.2 ≠ []) →
      parseConditionsLoop ops s fuel prev f i = .ok (f', cell, i') →
      ∀ e ∈ f'.m, e.2 ≠ [] := by
  intro fuel
  induction fuel with
  | zero =>
    intro prev f i f' cell i' hm h
    simp only [parseConditionsLoop, Except.ok.injEq, Prod.mk.injEq] at h
    obtain ⟨h1, -, -⟩ := h
    subst h1
    exact mapAppend_nonempty hm
  | succ fuel ih =>
    intro prev f i f' cell i' hm h
    rw [parseConditionsLoop] at h
    by_cases hi : i < s.length
    · rw [if_pos hi] at h
      cases hsep : parseSeparator s i with
      | error e => simp [hsep] at h
      | ok v =>
        obtain ⟨sep, i2⟩ := v
        simp only [hsep] at h
        cases hcond : parseCondition ops s i2 with
        | error e => simp [hcond] at h
        | ok w =>
          obtain ⟨cond, i3⟩ := w
          simp only [hcond] at h
          exact ih cond _ i3 f' cell i' (mapAppend_nonempty hm) h
    · rw [if_neg hi] at h
      simp only [Except.ok.injEq, Prod.mk.injEq] at h
      obtain ⟨h1, -, -⟩ := h
      subst h1
      exact mapAppend_nonempty hm

theorem goParse_buckets_nonempty {ops : List GoString} {s : GoString} {f : GoFilter}
    {cell : Option CondV} (h : goParse ops s = .ok (f, cell)) : ∀ e ∈ f.m, e.2 ≠ [] := by
  unfold goParse at h
  by_cases hs : s.length = 0
  · rw [if_pos hs] at h
    simp only [Except.ok.injEq, Prod.mk.injEq] at h
    obtain ⟨h1, -⟩ := h
    subst h1
    simp
  · rw [if_neg hs] at h
    cases hp : parseConditions ops s 0 with
    | error e => simp [hp] at h
    | ok r =>
      obtain ⟨f₀, cell₀, i₀⟩ := r
      simp only [hp, Except.ok.injEq, Prod.mk.injEq] at h
      obtain ⟨h1, -⟩ := h
      subst h1
      unfold parseConditions at hp
      cases hc : parseCondition ops s 0 with
      | error e => simp [hc] at hp
      | ok w =>
        obtain ⟨cond, i⟩ := w
        simp only [hc] at hp
        by_cases hlen : i = s.length
        · rw [if_pos hlen] at hp
          simp only [Except.ok.injEq, Prod.mk.injEq] at hp
          obtain ⟨h2, -, -⟩ := hp
          rw [← h2]
          exact mapAppend_nonempty (by simp)
        · rw [if_neg hlen] at hp
          exact parseConditionsLoop_nonempty ops s (s.length + 1) cond ⟨[], some cond⟩ i
            f₀ cell₀ i₀ (by simp) hp

/-- Claim C10: in every Filter produced by a successful Parse, every key
present in the index maps to a non-empty bucket, so GetFirst and GetLast
never index out of range (the outer Option of the model never takes its
panic value `none`): they return the bucket's first resp. last condition
with ok = true exactly when the key is present, and (nil, false) exactly
when it is absent. -/
theorem c10_getfirst_getlast_safe (ops : List GoString) (s : GoString) (f : GoFilter)
    (cell : Option CondV) (h : goParse ops s = .ok (f, cell)) (k : GoString) :
    filterGetFirst f k ≠ none ∧ filterGetLast f k ≠ none ∧
    (mapGet f.m k = none →
      filterGetFirst f k = some (none, false) ∧ filterGetLast f k = some (none, false)) ∧
    (∀ cs, mapGet f.m k = some cs →
      cs ≠ [] ∧ filterGetFirst f k = some (cs.head?, true) ∧
        filterGetLast f k = some (cs.getLast?, true)) := by
  have hinv := goParse_buckets_nonempty h
  cases hg : mapGet f.m k with
  | none =>
    refine ⟨by simp [filterGetFirst, hg], by simp [filterGetLast, hg], fun _ => ?_, ?_⟩
    · exact ⟨by simp [filterGetFirst, hg], by simp [filterGetLast, hg]⟩
    · intro cs hcs
      exact absurd hcs (by simp)
  | some cs =>
    have hne : cs ≠ [] := hinv (k, cs) (mapGet_mem hg)
    obtain ⟨c, cs', rfl⟩ := List.exists_cons_of_ne_nil hne
    have hlast : (c :: cs').getLast? = some ((c :: cs').getLast (by simp)) :=
      List.getLast?_eq_getLast _ _
    refine ⟨by simp [filterGetFirst, hg], by simp [filterGetLast, hg, hlast], ?_, ?_⟩
    · intro hnone
      exact absurd hnone (by simp)
    · intro cs₀ hcs₀
      injection hcs₀ with h₀
      subst h₀
      exact ⟨by simp, by simp [filterGetFirst, hg], by simp [filterGetLast, hg, hlast]⟩

/-- Witness for C10: the theorem applied to the parse of "foo=bar" at key
"foo". -/
theorem c10_getfirst_getlast_safe_witness :
    filterGetFirst ⟨[(ascii "foo", [condFooBar])], some condFooBar⟩ (ascii "foo") =
      some (some condFooBar, true) ∧
    filterGetLast ⟨[(ascii "foo", [condFooBar])], some condFooBar⟩ (ascii "foo") =
      some (some condFooBar, true) := by
  have h := c10_getfirst_getlast_safe defaultOps (ascii "foo=bar")
    ⟨[(ascii "foo", [condFooBar])], some condFooBar⟩ (some condFooBar) rfl (ascii "foo")
  have h2 := h.2.2.2 [condFooBar] rfl
  exact ⟨h2.2.1, h2.2.2⟩

theorem opScan_ok_spec (ops : List GoString) (s : GoString) (start : Nat) :
    ∀ (fuel i : Nat) (v : GoString) (k : Nat), opScan ops s start fuel i = .ok (v, k) →
      v = gosub s start k ∧ i < k ∧ k ≤ s.length ∧ v ∈ ops ∧
      ∀ j, i < j → j < k → gosub s start j ∉ ops := by
  intro fuel
  induction fuel with
  | zero => intro i v k h; simp [opScan] at h
  | succ fuel ih =>
    intro i v k h
    rw [opScan] at h
    by_cases hi : i < s.length
    · rw [if_pos hi] at h
      by_cases hv : gosub s start (i + 1) ∈ ops
      · simp only [if_pos hv, Except.ok.injEq, Prod.mk.injEq] at h
        obtain ⟨h1, h2⟩ := h
        subst h2
        refine ⟨h1.symm, Nat.lt_succ_self i, hi, h1 ▸ hv, fun j hj1 hj2 => ?_⟩
        exact absurd hj1 (by omega)
      · simp only [if_neg hv] at h
        obtain ⟨h1, h2, h3, h4, h5⟩ := ih (i + 1) v k h
        refine ⟨h1, by omega, h3, h4, fun j hj1 hj2 => ?_⟩
        by_cases hj : j = i + 1
        · exact hj ▸ hv
        · exact h5 j (by omega) hj2
    · rw [if_neg hi] at h
      exact absurd h (by simp)

theorem opScan_exhaust (ops : List GoString) (s : GoString) (start : Nat) :
    ∀ (fuel i : Nat), i ≤ s.length → s.length - i < fuel →
      (∀ j, i < j → j ≤ s.length → gosub s start j ∉ ops) →
      opScan ops s start fuel i = .error ⟨"expected operator", start, gosub s start s.length⟩ := by
  intro fuel
  induction fuel with
  | zero => intro i h1 h2; omega
  | succ fuel ih =>
    intro i hle hfuel hno
    rw [opScan]
    by_cases hi : i < s.length
    · rw [if_pos hi, if_neg (hno (i + 1) (Nat.lt_succ_self i) hi)]
      exact ih (i + 1) hi (by omega) fun j hj1 hj2 => hno j (by omega) hj2
    · have hieq : i = s.length := by omega
      rw [if_neg hi, hieq]

theorem gosub_to_suffix (s : GoString) (start : Nat) :
    gosub s start s.length = gosuffix s start := by
  unfold gosub gosuffix
  have h : s.length - start = (s.drop start).length := (List.length_drop start s).symm
  rw [h, List.take_length]

/-- Claim C3: operator matching returns the first registered operator found
as the scan grows one byte at a time (shortest-scan-wins): with "=" in the
registered set the scan can never return "=="; when the scan exhausts the
input without a match, parsing fails with "expected operator" at the
position where the operator was expected (the end of the name), and in
particular parse("foo*bar") with the default operators fails with
"expected operator" at position 3. -/
theorem c3_operator_first_match :
    (∀ (ops : List GoString) (s : GoString) (start : Nat) (v : GoString) (k : Nat),
        ascii "=" ∈ ops → parseOperator ops s start = .ok (v, k) → v ≠ ascii "==") ∧
    (∀ (ops : List GoString) (s : GoString) (start : Nat), start ≤ s.length →
        (∀ j, start < j → j ≤ s.length → gosub s start j ∉ ops) →
        parseOperator ops s start =
          .error ⟨"expected operator", start, gosuffix s start⟩) ∧
    goParse defaultOps (ascii "foo*bar") = .error ⟨"expected operator", 3, ascii "*bar"⟩ := by
  refine ⟨?_, ?_, rfl⟩
  · intro ops s start v k hmem hok hveq
    subst hveq
    obtain ⟨hv, hik, hkle, -, hnone⟩ := opScan_ok_spec ops s start _ start _ k hok
    have hlen : (gosub s start k).length = 2 := by rw [← hv]; rfl
    have htk : (s.drop start).take (k - start) = [61, 61] := by
      have : ascii "==" = [61, 61] := rfl
      rw [← this, hv]; rfl
    have hmin : min (k - start) (s.drop start).length = 2 := by
      have := List.length_take (k - start) (s.drop start)
      unfold gosub at hlen
      omega
    have hk2 : start + 1 < k := by omega
    have h1 : gosub s start (start + 1) = ascii "=" := by
      unfold gosub
      have ht : ((s.drop start).take (k - start)).take 1 = (s.drop start).take 1 := by
        rw [List.take_take]
        congr 1
        omega
      rw [show start + 1 - start = 1 from by omega, ← ht, htk]
      rfl
    exact hnone (start + 1) (by omega) hk2 (h1 ▸ hmem)
  · intro ops s start hle hno
    unfold parseOperator
    rw [opScan_exhaust ops s start (s.length + 1 - start) start hle (by omega) hno]
    rw [gosub_to_suffix]

/-- Witness for C3: at the input "==x" with the default operator set the
scan cannot return "==", and at "*x" with operator set containing only "="
the scan exhausts and reports expected-operator at position 0. -/
theorem c3_operator_first_match_witness :
    parseOperator defaultOps (ascii "==x") 0 ≠ .ok (ascii "==", 2) ∧
    parseOperator [ascii "="] (ascii "*x") 0 =
      .error ⟨"expected operator", 0, ascii "*x"⟩ := by
  constructor
  · intro hcontra
    exact c3_operator_first_match.1 defaultOps (ascii "==x") 0 (ascii "==") 2
      (by decide) hcontra rfl
  · refine c3_operator_first_match.2.1 [ascii "="] (ascii "*x") 0 (by decide) ?_
    intro j hj1 hj2
    have hj2' : j ≤ 2 := hj2
    interval_cases j <;> decide


theorem ite_nameByte {α : Type} (b : Nat) (x y : α) :
    (if isLetterLatin1 b then x else if isNumberLatin1 b then x
      else if b = 95 then x else y) = if nameByte b then x else y := by
  unfold nameByte
  by_cases h1 : isLetterLatin1 b <;> by_cases h2 : isNumberLatin1 b <;>
    by_cases h3 : b = 95 <;> simp [h1, h2, h3]

theorem nameScan_takeWhile (s : GoString) :
    ∀ (fuel i : Nat), s.length - i < fuel →
      nameScan s fuel i = i + ((s.drop i).takeWhile nameByte).length := by
  intro fuel
  induction fuel with
  | zero => intro i h; omega
  | succ fuel ih =>
    intro i hfuel
    rw [nameScan]
    by_cases hi : i < s.length
    · rw [if_pos hi, ite_nameByte]
      have hdrop : s.drop i = s[i] :: s.drop (i + 1) := List.drop_eq_getElem_cons hi
      have hget : goget s i = s[i] := List.getD_eq_getElem s 0 hi
      rw [hdrop, List.takeWhile_cons, hget]
      by_cases hb : nameByte s[i] = true
      · rw [if_pos hb, if_pos hb, ih (i + 1) (by omega), List.length_cons]
        omega
      · rw [if_neg hb, if_neg hb]
        simp
    · rw [if_neg hi, List.drop_eq_nil_of_le (by omega)]
      simp

theorem take_takeWhile_length (p : Nat → Bool) :
    ∀ (l : List Nat), l.take (l.takeWhile p).length = l.takeWhile p := by
  intro l
  induction l with
  | nil => rfl
  | cons a l ih =>
    rw [List.takeWhile_cons]
    by_cases ha : p a
    · simp only [ha, if_true, List.length_cons, List.take_succ_cons, ih]
    · simp [ha]

theorem goget_oob {s : GoString} {i : Nat} (h : ¬ i < s.length) : goget s i = 0 :=
  List.getD_eq_default _ _ (by omega)

theorem parseName_ok_iff (s : GoString) (start : Nat) :
    (∃ v i2, parseName s start = .ok (v, i2)) ↔
      start < s.length ∧ isLetterLatin1 (goget s start) = true := by
  constructor
  · rintro ⟨v, i2, hok⟩
    unfold parseName at hok
    by_cases h1 : s.length = start
    · rw [if_pos h1] at hok
      exact absurd hok (by simp)
    · rw [if_neg h1] at hok
      by_cases h2 : isLetterLatin1 (goget s start) = true
      · refine ⟨?_, h2⟩
        by_cases h3 : start < s.length
        · exact h3
        · rw [goget_oob h3] at h2
          exact absurd h2 (by decide)
      · rw [if_pos h2] at hok
        exact absurd hok (by simp)
  · rintro ⟨hlt, hlet⟩
    unfold parseName
    rw [if_neg (by omega), if_neg (not_not_intro hlet)]
    exact ⟨_, _, rfl⟩

theorem parseName_ok_spec {s : GoString} {start : Nat} {v : GoString} {i2 : Nat}
    (hok : parseName s start = .ok (v, i2)) :
    v = goget s start :: (s.drop (start + 1)).takeWhile nameByte ∧
    i2 = start + 1 + ((s.drop (start + 1)).takeWhile nameByte).length := by
  have hscan := nameScan_takeWhile s (s.length + 1) (start + 1) (by omega)
  unfold parseName at hok
  by_cases h1 : s.length = start
  · rw [if_pos h1] at hok
    exact absurd hok (by simp)
  · rw [if_neg h1] at hok
    by_cases h2 : isLetterLatin1 (goget s start) = true
    · rw [if_neg (not_not_intro h2)] at hok
      simp only [Except.ok.injEq, Prod.mk.injEq] at hok
      obtain ⟨hv, hi2⟩ := hok
      have hlt : start < s.length := by
        by_contra h3
        rw [goget_oob h3] at h2
        exact absurd h2 (by decide)
      have hdrop : s.drop start = s[start] :: s.drop (start + 1) :=
        List.drop_eq_getElem_cons hlt
      have hget : goget s start = s[start] := List.getD_eq_getElem s 0 hlt
      constructor
      · rw [← hv]
        unfold gosub
        rw [hscan, hdrop, hget,
          show start + 1 + ((s.drop (start + 1)).takeWhile nameByte).length - start =
            ((s.drop (start + 1)).takeWhile nameByte).length + 1 from by omega,
          List.take_succ_cons, take_takeWhile_length]
      · rw [← hi2]
        exact hscan
    · rw [if_pos h2] at hok
      exact absurd hok (by simp)

/-- Claim C5, refuted on the code: the UTF-8 encoding of the Hebrew letter
Alef (a Unicode letter) is the two bytes 0xD7 0x90, yet parsing the input
Alef followed by "=x" fails with name-must-start-with-letter at position 0:
the parser widens only the first byte 0xD7 to a code point (the
multiplication sign, which is not a letter) instead of decoding the rune,
so a name starting with this Unicode letter is not accepted. -/
theorem c5_counterexample :
    runeEncode 0x5D0 = [0xD7, 0x90] ∧
    goParse defaultOps (runeEncode 0x5D0 ++ ascii "=x") =
      .error ⟨"name must start with letter", 0, runeEncode 0x5D0 ++ ascii "=x"⟩ :=
  ⟨rfl, rfl⟩

/-- Claim C5 as amended: a name token is accepted iff its first byte,
widened to a code point, is a letter (an ASCII letter or a Latin-1 letter
byte); the accepted token consists of that byte followed by the maximal run
of bytes that widen to letters, digits, or underscore.  Where a name is
expected, end of input fails with "unexpected end of string, expected a
name" and a non-letter first byte fails with "name must start with letter",
each at the offending offset: parse("1foo=bar") fails at position 0, and in
a dotted path an empty segment fails at the position of the character
following the dot: parse("foo..bar=bla") fails at position 4. -/
theorem c5_name_validation_amended (s : GoString) (start : Nat) :
    ((∃ v i2, parseName s start = .ok (v, i2)) ↔
      start < s.length ∧ isLetterLatin1 (goget s start) = true) ∧
    (∀ v i2, parseName s start = .ok (v, i2) →
      v = goget s start :: (s.drop (start + 1)).takeWhile nameByte ∧
      i2 = start + 1 + ((s.drop (start + 1)).takeWhile nameByte).length) ∧
    (s.length = start →
      parseName s start =
        .error ⟨"unexpected end of string, expected a name", start, gosuffix s start⟩) ∧
    (s.length ≠ start → isLetterLatin1 (goget s start) = false →
      parseName s start =
        .error ⟨"name must start with letter", start, gosuffix s start⟩) ∧
    goParse defaultOps (ascii "1foo=bar") =
      .error ⟨"name must start with letter", 0, ascii "1foo=bar"⟩ ∧
    goParse defaultOps (ascii "foo..bar=bla") =
      .error ⟨"name must start with letter", 4, ascii ".bar=bla"⟩ := by
  refine ⟨parseName_ok_iff s start, fun v i2 hok => parseName_ok_spec hok, ?_, ?_, rfl, rfl⟩
  · intro h1
    unfold parseName
    rw [if_pos h1]
  · intro h1 h2
    unfold parseName
    rw [if_neg h1, if_pos (by simp [h2])]

/-- Witness for C5's amended theorem: the name rule evaluated at "1foo=bar"
and at "foo=bar". -/
theorem c5_name_validation_amended_witness :
    parseName (ascii "1foo=bar") 0 =
      .error ⟨"name must start with letter", 0, ascii "1foo=bar"⟩ ∧
    (∃ v i2, parseName (ascii "foo=bar") 0 = .ok (v, i2)) := by
  constructor
  · exact (c5_name_validation_amended (ascii "1foo=bar") 0).2.2.2.1 (by decide) (by decide)
  · exact (c5_name_validation_amended (ascii "foo=bar") 0).1.mpr (by decide)

/-- Claim C7: a bare (unquoted) value consumes exactly the bytes up to the
next whitespace run or the end of input; an absent value — the operator
immediately followed by end of input or by a separator (which begins with
whitespace) — yields the empty string rather than an error; and
parse("foo=") succeeds with the single condition foo = "", while
parse("foo= AND bla=vla") gives foo the empty value. -/
theorem c7_bare_value (s : GoString) (start : Nat)
    (hA : ∀ b ∈ s.drop start, b < 128)
    (hq : start = s.length ∨ goget s start ≠ 34) :
    (parseValue s start =
      .ok ((s.drop start).takeWhile (fun b => isSpaceRune b = false),
        start + ((s.drop start).takeWhile (fun b => isSpaceRune b = false)).length)) ∧
    (start = s.length ∨ isSpaceRune (goget s start) = true →
      parseValue s start = .ok ([], start)) ∧
    goParse defaultOps (ascii "foo=") =
      .ok (⟨[(ascii "foo", [condFooEmpty])], some condFooEmpty⟩, some condFooEmpty) ∧
    goParse defaultOps (ascii "foo= AND bla=vla") =
      .ok (⟨[(ascii "foo", [⟨ascii "foo", [ascii "foo"], ascii "=", [], some (), none⟩]),
             (ascii "bla", [condBlaVla])], some condFooEmpty⟩, some condBlaVla) := by
  have hmain : parseValue s start =
      .ok ((s.drop start).takeWhile (fun b => isSpaceRune b = false),
        start + ((s.drop start).takeWhile (fun b => isSpaceRune b = false)).length) := by
    by_cases h : start = s.length
    · unfold parseValue
      rw [if_pos h, h, List.drop_length]
      rfl
    · unfold parseValue
      rw [if_neg h, if_neg (hq.resolve_left h)]
      have hnv : parseNormalValue s start =
          .ok (gosub s start (spaceOrNonSpace s start false), spaceOrNonSpace s start false) :=
        rfl
      rw [hnv, spaceOrNonSpace_ascii s start false hA]
      unfold gosub
      rw [show start + ((s.drop start).takeWhile fun b => isSpaceRune b = false).length - start
          = ((s.drop start).takeWhile fun b => isSpaceRune b = false).length from by omega,
        take_takeWhile_length]
  refine ⟨hmain, ?_, rfl, rfl⟩
  intro habs
  rw [hmain]
  have hnil : (s.drop start).takeWhile (fun b => isSpaceRune b = false) = [] := by
    rcases habs with h | h
    · rw [h, List.drop_length]
      rfl
    · by_cases hlt : start < s.length
      · have hdrop : s.drop start = s[start] :: s.drop (start + 1) :=
          List.drop_eq_getElem_cons hlt
        have hget : goget s start = s[start] := List.getD_eq_getElem s 0 hlt
        have hsp : isSpaceRune s[start] = true := by rw [← hget]; exact h
        rw [hdrop, List.takeWhile_cons, if_neg (by simp [hsp])]
      · rw [List.drop_eq_nil_of_le (by omega)]
        rfl
  rw [hnil]
  rfl

/-- Witness for C7: the bare-value rule evaluated inside "foo=bar" just
after the operator, and at "foo=" at end of input. -/
theorem c7_bare_value_witness :
    parseValue (ascii "foo=bar") 4 = .ok (ascii "bar", 7) ∧
    parseValue (ascii "foo=") 4 = .ok ([], 4) := by
  constructor
  · have h := (c7_bare_value (ascii "foo=bar") 4 (by decide) (Or.inr (by decide))).1
    rw [h]
    rfl
  · have h := (c7_bare_value (ascii "foo=") 4 (by decide) (Or.inl (by decide))).2.1
      (Or.inl (by decide))
    exact h

theorem takeWhile_split (p : Nat → Bool) (l : List Nat) :
    l = l.takeWhile p ++ l.drop (l.takeWhile p).length := by
  conv_lhs => rw [← List.take_append_drop (l.takeWhile p).length l]
  rw [take_takeWhile_length]

theorem mem_takeWhile_pred {p : Nat → Bool} {l : List Nat} {b : Nat}
    (h : b ∈ l.takeWhile p) : p b = true := List.mem_takeWhile_imp h

theorem drop_spaceOrNonSpace (s : GoString) (start : Nat) (sp : Bool)
    (hA : ∀ b ∈ s.drop start, b < 128) :
    s.drop (spaceOrNonSpace s start sp) =
      (s.drop start).drop (((s.drop start).takeWhile fun b => isSpaceRune b = sp).length) := by
  rw [spaceOrNonSpace_ascii s start sp hA]
  exact (List.drop_drop _ _ _).symm

/-- Claim C6: for ASCII input, a separator parses successfully iff the text
at the cursor decomposes into at least one whitespace byte, then exactly
the token "AND" or "OR" (as the full non-space run), then at least one
whitespace byte; failures produce one of the two separator-specific error
messages at the point of failure (illustrated by the three concrete error
evaluations); no separator is consumed after the last condition
(parse("foo=bar") succeeds as is); and parse("foo=bar AND ") fails with
the unexpected-end-of-string name error at position 12, just after the
trailing separator. -/
theorem c6_separator (s : GoString) (start : Nat) (hA : ∀ b ∈ s.drop start, b < 128) :
    ((∃ sep k, parseSeparator s start = .ok (sep, k)) ↔
      ∃ w1 t w2 rest, s.drop start = w1 ++ (t ++ (w2 ++ rest)) ∧
        w1 ≠ [] ∧ (∀ b ∈ w1, isSpaceRune b = true) ∧
        (t = ascii "AND" ∨ t = ascii "OR") ∧
        w2 ≠ [] ∧ (∀ b ∈ w2, isSpaceRune b = true)) ∧
    (∀ e, parseSeparator s start = .error e →
      e.message = "expected a whitespace" ∨
      e.message = "expected a condition separator (AND, OR)") ∧
    goParse defaultOps (ascii "foo=bar") =
      .ok (⟨[(ascii "foo", [condFooBar])], some condFooBar⟩, some condFooBar) ∧
    goParse defaultOps (ascii "foo=bar AND ") =
      .error ⟨"unexpected end of string, expected a name", 12, []⟩ ∧
    parseSeparator (ascii "ANDx") 0 = .error ⟨"expected a whitespace", 0, ascii "ANDx"⟩ ∧
    parseSeparator (ascii " XOR x") 0 =
      .error ⟨"expected a condition separator (AND, OR)", 1, ascii "XOR x"⟩ ∧
    parseSeparator (ascii " AND") 0 = .error ⟨"expected a whitespace", 4, []⟩ := by
  have hA1 : ∀ b ∈ s.drop (spaceOrNonSpace s start true), b < 128 := by
    rw [drop_spaceOrNonSpace s start true hA]
    exact fun b hb => hA b (List.drop_subset _ _ hb)
  have hA2 : ∀ b ∈ s.drop (spaceOrNonSpace s (spaceOrNonSpace s start true) false), b < 128 := by
    rw [drop_spaceOrNonSpace s (spaceOrNonSpace s start true) false hA1]
    exact fun b hb => hA1 b (List.drop_subset _ _ hb)
  refine ⟨⟨?_, ?_⟩, ?_, rfl, rfl, rfl, rfl, rfl⟩
  · rintro ⟨sep, k, hok⟩
    simp only [parseSeparator] at hok
    set i := spaceOrNonSpace s start true with hi_def
    set j := spaceOrNonSpace s i false with hj_def
    set m := spaceOrNonSpace s j true with hm_def
    by_cases h1 : i = start
    · rw [if_pos h1] at hok
      exact absurd hok (by simp)
    · rw [if_neg h1] at hok
      by_cases h2 : gosub s i j = ascii "AND" ∨ gosub s i j = ascii "OR"
      · rw [if_neg (not_not_intro h2)] at hok
        by_cases h3 : m = j
        · rw [if_pos h3] at hok
          exact absurd hok (by simp)
        · rw [if_neg h3] at hok
          simp only [Except.ok.injEq, Prod.mk.injEq] at hok
          obtain ⟨hsep, hk⟩ := hok
          have hi_val : i = start + ((s.drop start).takeWhile
              fun b => isSpaceRune b = true).length := spaceOrNonSpace_ascii s start true hA
          have hdi : s.drop i = (s.drop start).drop (((s.drop start).takeWhile
              fun b => isSpaceRune b = true).length) := drop_spaceOrNonSpace s start true hA
          have hj_val : j = i + ((s.drop i).takeWhile
              fun b => isSpaceRune b = false).length := spaceOrNonSpace_ascii s i false hA1
          have hdj : s.drop j = (s.drop i).drop (((s.drop i).takeWhile
              fun b => isSpaceRune b = false).length) := drop_spaceOrNonSpace s i false hA1
          have hm_val : m = j + ((s.drop j).takeWhile
              fun b => isSpaceRune b = true).length := spaceOrNonSpace_ascii s j true hA2
          have hdm : s.drop m = (s.drop j).drop (((s.drop j).takeWhile
              fun b => isSpaceRune b = true).length) := drop_spaceOrNonSpace s j true hA2
          have hsep_val : sep = (s.drop i).takeWhile (fun b => isSpaceRune b = false) := by
            rw [← hsep]
            unfold gosub
            rw [show j - i = ((s.drop i).takeWhile
              fun b => isSpaceRune b = false).length from by omega, take_takeWhile_length]
          have e1 : s.drop start =
              ((s.drop start).takeWhile (fun b => isSpaceRune b = true)) ++ s.drop i := by
            rw [hdi]
            exact takeWhile_split _ _
          have e2 : s.drop i = sep ++ s.drop j := by
            rw [hsep_val, hdj]
            exact takeWhile_split _ _
          have e3 : s.drop j =
              ((s.drop j).takeWhile (fun b => isSpaceRune b = true)) ++ s.drop m := by
            rw [hdm]
            exact takeWhile_split _ _
          refine ⟨(s.drop start).takeWhile (fun b => isSpaceRune b = true), sep,
            (s.drop j).takeWhile (fun b => isSpaceRune b = true), s.drop m,
            ?_, ?_, ?_, ?_, ?_, ?_⟩
          · conv_lhs => rw [e1, e2, e3]
          · intro hnil
            rw [hnil] at hi_val
            exact h1 (by simpa using hi_val)
          · exact fun b hb => by simpa using mem_takeWhile_pred hb
          · exact hsep ▸ h2
          · intro hnil
            rw [hnil] at hm_val
            exact h3 (by simpa using hm_val)
          · exact fun b hb => by simpa using mem_takeWhile_pred hb
      · rw [if_pos h2] at hok
        exact absurd hok (by simp)
  · rintro ⟨w1, t, w2, rest, hsplit, hw1ne, hw1sp, ht, hw2ne, hw2sp⟩
    obtain ⟨c, w2', rfl⟩ := List.exists_cons_of_ne_nil hw2ne
    have ht_nonspace : ∀ b ∈ t, isSpaceRune b = false := by
      rcases ht with rfl | rfl <;> decide
    have h_tw1 : (s.drop start).takeWhile (fun b => isSpaceRune b = true) = w1 := by
      rw [hsplit, takeWhile_append_all (fun b hb => by simp [hw1sp b hb])]
      have hstop : (t ++ (c :: w2' ++ rest)).takeWhile
          (fun b => isSpaceRune b = true) = [] := by
        rcases ht with rfl | rfl <;> rfl
      rw [hstop, List.append_nil]
    have hi_val : spaceOrNonSpace s start true = start + w1.length := by
      rw [spaceOrNonSpace_ascii s start true hA, h_tw1]
    set i := spaceOrNonSpace s start true with hi_def
    have hdropi : s.drop i = t ++ (c :: w2' ++ rest) := by
      rw [drop_spaceOrNonSpace s start true hA, h_tw1, hsplit, List.drop_left]
    have h_tw2 : (s.drop i).takeWhile (fun b => isSpaceRune b = false) = t := by
      rw [hdropi, takeWhile_append_all (fun b hb => by simp [ht_nonspace b hb])]
      have hc : isSpaceRune c = true := hw2sp c (List.mem_cons_self c w2')
      rw [List.cons_append, takeWhile_cons_neg (by simp [hc]), List.append_nil]
    have hj_val : spaceOrNonSpace s i false = i + t.length := by
      rw [spaceOrNonSpace_ascii s i false hA1, h_tw2]
    set j := spaceOrNonSpace s i false with hj_def
    have hdropj : s.drop j = c :: w2' ++ rest := by
      rw [drop_spaceOrNonSpace s i false hA1, h_tw2, hdropi, List.drop_left]
    have hsep_val : gosub s i j = t := by
      unfold gosub
      rw [show j - i = t.length from by omega, hdropi, List.take_left]
    have hm_ge : spaceOrNonSpace s j true ≠ j := by
      rw [spaceOrNonSpace_ascii s j true hA2, hdropj]
      have hc : isSpaceRune c = true := hw2sp c (List.mem_cons_self c w2')
      rw [List.cons_append, List.takeWhile_cons, if_pos (by simp [hc])]
      simp
    refine ⟨t, spaceOrNonSpace s j true, ?_⟩
    simp only [parseSeparator]
    rw [← hi_def, ← hj_def]
    rw [if_neg (show ¬ i = start from by
      have := List.length_pos.mpr hw1ne
      omega)]
    rw [hsep_val, if_neg (not_not_intro ht), if_neg hm_ge]
  · intro e he
    simp only [parseSeparator] at he
    set i := spaceOrNonSpace s start true with hi_def
    set j := spaceOrNonSpace s i false with hj_def
    set m := spaceOrNonSpace s j true with hm_def
    by_cases c1 : i = start
    · rw [if_pos c1] at he
      injection he with h
      rw [← h]
      left
      rfl
    · rw [if_neg c1] at he
      by_cases c2 : gosub s i j = ascii "AND" ∨ gosub s i j = ascii "OR"
      · rw [if_neg (not_not_intro c2)] at he
        by_cases c3 : m = j
        · rw [if_pos c3] at he
          injection he with h
          rw [← h]
          left
          rfl
        · rw [if_neg c3] at he
          exact absurd he (by simp)
      · rw [if_pos c2] at he
        injection he with h
        rw [← h]
        right
        rfl

/-- Witness for C6: the separator rule applied concretely, deriving success
on " AND x" from the decomposition direction of the iff. -/
theorem c6_separator_witness :
    (∃ sep k, parseSeparator (ascii " AND x=1") 0 = .ok (sep, k)) ∧
    parseSeparator (ascii "AND x=1") 0 =
      .error ⟨"expected a whitespace", 0, ascii "AND x=1"⟩ := by
  constructor
  · exact (c6_separator (ascii " AND x=1") 0 (by decide)).1.mpr
      ⟨[32], ascii "AND", [32], ascii "x=1", by decide, by decide, by decide,
        Or.inl rfl, by decide, by decide⟩
  · rfl

theorem runeEncode_ascii {b : Nat} (hb : b < 128) : runeEncode b = [b] := by
  simp [runeEncode, hb]

theorem drop_cons_tail {s : GoString} {i b : Nat} {bs : GoString}
    (h : s.drop i = b :: bs) : s.drop (i + 1) = bs := by
  have ht : (s.drop i).tail = s.drop (i + 1) := List.tail_drop s i
  rw [← ht, h]
  rfl

theorem drop_cons_lt {s : GoString} {i b : Nat} {bs : GoString}
    (h : s.drop i = b :: bs) : i < s.length := by
  by_contra hge
  rw [List.drop_eq_nil_of_le (by omega)] at h
  exact absurd h (by simp)

theorem quotesEscapedLoop_ascii (s : GoString) :
    ∀ (fuel i : Nat) (acc : GoString),
      (∀ b ∈ s.drop i, b < 128) → (s.drop i).length < fuel →
      quotesEscapedLoop s fuel i false acc =
        (acc ++ escSpec (s.drop i), i + escStopLen (s.drop i)) := by
  intro fuel
  induction fuel using Nat.strong_induction_on with
  | _ fuel ih =>
    intro i acc hA hflen
    cases hbs : s.drop i with
    | nil =>
      have hi : ¬ i < s.length := by
        have := List.drop_eq_nil_iff.mp hbs
        omega
      obtain ⟨f, rfl⟩ : ∃ f, fuel = f + 1 := ⟨fuel - 1, by omega⟩
      rw [quotesEscapedLoop, if_neg hi]
      simp [escSpec, escStopLen]
    | cons b bs' =>
      have hi : i < s.length := drop_cons_lt hbs
      have hb : b < 128 := hA b (by rw [hbs]; simp)
      have htail : s.drop (i + 1) = bs' := drop_cons_tail hbs
      have hdec : decodeRune (gosuffix s i) = (b, 1) := by
        show decodeRune (s.drop i) = (b, 1)
        rw [hbs]
        exact decodeRune_ascii bs' hb
      rw [hbs] at hflen
      obtain ⟨f, rfl⟩ : ∃ f, fuel = f + 1 := ⟨fuel - 1, by simp at hflen; omega⟩
      rw [quotesEscapedLoop, if_pos hi]
      simp only [hdec, Bool.false_eq_true, if_false]
      by_cases h34 : b = 34
      · subst h34
        rw [if_pos rfl]
        simp [escSpec, escStopLen]
      · rw [if_neg h34]
        by_cases h92 : b = 92
        · subst h92
          rw [if_pos rfl]
          cases hbs' : bs' with
          | nil =>
            rw [hbs'] at htail
            have hi1 : ¬ i + 1 < s.length := by
              have := List.drop_eq_nil_iff.mp htail
              omega
            rw [hbs'] at hflen
            obtain ⟨f2, rfl⟩ : ∃ f2, f = f2 + 1 := ⟨f - 1, by simp at hflen; omega⟩
            rw [quotesEscapedLoop, if_neg hi1]
            simp [escSpec, escStopLen]
          | cons c bs2 =>
            rw [hbs'] at htail
            have hi1 : i + 1 < s.length := drop_cons_lt htail
            have hc : c < 128 := hA c (by rw [hbs, hbs']; simp)
            have htail2 : s.drop (i + 2) = bs2 := by
              have := drop_cons_tail htail
              simpa [Nat.add_assoc] using this
            have hdec2 : decodeRune (gosuffix s (i + 1)) = (c, 1) := by
              show decodeRune (s.drop (i + 1)) = (c, 1)
              rw [htail]
              exact decodeRune_ascii bs2 hc
            rw [hbs'] at hflen
            obtain ⟨f2, rfl⟩ : ∃ f2, f = f2 + 1 := ⟨f - 1, by simp at hflen; omega⟩
            rw [quotesEscapedLoop, if_pos hi1]
            simp only [hdec2, if_true]
            have hA2 : ∀ x ∈ s.drop (i + 2), x < 128 := by
              rw [htail2]
              intro x hx
              exact hA x (by rw [hbs, hbs']; simp [hx])
            have hlen2 : (s.drop (i + 2)).length < f2 := by
              rw [htail2]
              simp at hflen
              omega
            have hih := ih f2 (by omega) (i + 2) ((if c = 34 ∨ c = 92 then acc
              else acc ++ [92]) ++ runeEncode c) hA2 hlen2
            rw [show i + 1 + 1 = i + 2 from rfl, hih, htail2]
            rw [runeEncode_ascii hc]
            by_cases hcc : c = 34 ∨ c = 92
            · rw [if_pos hcc]
              have he : escSpec (92 :: c :: bs2) = c :: escSpec bs2 := by
                simp [escSpec, hcc]
              have hl : escStopLen (92 :: c :: bs2) = 2 + escStopLen bs2 := by
                simp [escStopLen]
              rw [he, hl]
              simp [List.append_assoc]
              omega
            · rw [if_neg hcc]
              have he : escSpec (92 :: c :: bs2) = 92 :: c :: escSpec bs2 := by
                have h1 : ¬ c = 34 := fun h => hcc (Or.inl h)
                have h2 : ¬ c = 92 := fun h => hcc (Or.inr h)
                simp [escSpec, h1, h2]
              have hl : escStopLen (92 :: c :: bs2) = 2 + escStopLen bs2 := by
                simp [escStopLen]
              rw [he, hl]
              simp [List.append_assoc]
              omega
        · rw [if_neg h92]
          have hA1 : ∀ x ∈ s.drop (i + 1), x < 128 := by
            rw [htail]
            intro x hx
            exact hA x (by rw [hbs]; simp [hx])
          have hlen1 : (s.drop (i + 1)).length < f := by
            rw [htail]
            simp at hflen
            omega
          have hih := ih f (by omega) (i + 1) (acc ++ runeEncode b) hA1 hlen1
          rw [hih, htail, runeEncode_ascii hb]
          have he : escSpec (b :: bs') = b :: escSpec bs' := by
            simp [escSpec, h34, h92]
          have hl : escStopLen (b :: bs') = 1 + escStopLen bs' := by
            simp [escStopLen, h34, h92]
          rw [he, hl]
          simp [List.append_assoc]
          omega

/-- Claim C4: inside a quoted value the scanner maps a backslash followed
by a quote or a backslash to the single literal character, and a backslash
followed by any other character to the backslash retained literally plus
that character unchanged — for ASCII spans this is exactly the claim-side
function escSpec, with the scan stopping at the first unescaped quote.
Hence the parse of foo="say \"bar\"" yields the value say "bar", the parse
of foo="say\\ \n \"bar\"" yields say\ \n "bar" (the backslash before n is
kept as two characters), and a quoted value with no closing quote fails
with "unterminated quoted value" positioned at the opening quote:
parse of foo="bar fails at position 4. -/
theorem c4_quoted_escapes :
    (∀ (s : GoString) (start : Nat), (∀ b ∈ s.drop start, b < 128) →
      parseQuotesEscaped s start =
        (escSpec (s.drop start), start + escStopLen (s.drop start))) ∧
    goParse defaultOps (ascii "foo=\"say \\\"bar\\\"\"") =
      .ok (⟨[(ascii "foo", [⟨ascii "foo", [ascii "foo"], ascii "=",
          ascii "say \"bar\"", none, none⟩])],
        some ⟨ascii "foo", [ascii "foo"], ascii "=", ascii "say \"bar\"", none, none⟩⟩,
        some ⟨ascii "foo", [ascii "foo"], ascii "=", ascii "say \"bar\"", none, none⟩) ∧
    goParse defaultOps (ascii "foo=\"say\\\\ \\n \\\"bar\\\"\"") =
      .ok (⟨[(ascii "foo", [⟨ascii "foo", [ascii "foo"], ascii "=",
          ascii "say\\ \\n \"bar\"", none, none⟩])],
        some ⟨ascii "foo", [ascii "foo"], ascii "=", ascii "say\\ \\n \"bar\"", none, none⟩⟩,
        some ⟨ascii "foo", [ascii "foo"], ascii "=", ascii "say\\ \\n \"bar\"", none, none⟩) ∧
    goParse defaultOps (ascii "foo=\"bar") =
      .error ⟨"unterminated quoted value", 4, ascii "\"bar"⟩ := by
  refine ⟨?_, rfl, rfl, rfl⟩
  intro s start hA
  unfold parseQuotesEscaped
  rw [quotesEscapedLoop_ascii s (s.length + 1) start [] hA
    (by have := List.length_drop start s; omega)]
  simp

/-- Witness for C4: the escape law applied to the concrete span a\nb"x
(backslash before n retained, scan stops at the quote). -/
theorem c4_quoted_escapes_witness :
    parseQuotesEscaped (ascii "a\\nb\"x") 0 = (ascii "a\\nb", 4) := by
  have h := c4_quoted_escapes.1 (ascii "a\\nb\"x") 0 (by decide)
  rw [h]
  rfl

theorem decodeRune_high {b : Nat} (bs : GoString) (hb : 128 ≤ b) :
    0x80 ≤ (decodeRune (b :: bs)).1 := by
  rcases bs with _ | ⟨b1, _ | ⟨b2, _ | ⟨b3, rest⟩⟩⟩ <;>
  · rw [decodeRune.eq_def]
    simp only [runeError]
    split_ifs <;> first | omega | (simp_all; omega)

theorem runeEncode_head_high {r : Nat} (hr : 0x80 ≤ r) :
    ∃ h t, runeEncode r = h :: t ∧ 0xC0 ≤ h := by
  unfold runeEncode
  split_ifs with h1 h2 h3
  · omega
  · exact ⟨_, _, rfl, by omega⟩
  · exact ⟨_, _, rfl, by omega⟩
  · exact ⟨_, _, rfl, by omega⟩

theorem toLowerRune_high {r : Nat} (hr : 0x80 ≤ r) (h1 : r ≠ 0x130) (h2 : r ≠ 0x212A) :
    toLowerRune r = r := by
  unfold toLowerRune
  split_ifs <;> omega

theorem runeEncode_ne_nil (r : Nat) : runeEncode r ≠ [] := by
  unfold runeEncode
  split_ifs <;> simp

theorem toLowerLoop_caseIns :
    ∀ (fuel : Nat) (v w : GoString),
      (∀ c ∈ w, 0x61 ≤ c ∧ c ≤ 0x7A ∧ c ≠ 0x69 ∧ c ≠ 0x6B) → v.length < fuel →
      (toLowerLoop fuel v = w ↔ caseInsensitiveEqAscii v w = true) := by
  intro fuel
  induction fuel using Nat.strong_induction_on with
  | _ fuel ih =>
    intro v w hw hlen
    cases v with
    | nil =>
      obtain ⟨f, rfl⟩ : ∃ f, fuel = f + 1 := ⟨fuel - 1, by omega⟩
      rw [toLowerLoop]
      cases w with
      | nil => simp [caseInsensitiveEqAscii]
      | cons c ws => simp [caseInsensitiveEqAscii]
    | cons b vs =>
      obtain ⟨f, rfl⟩ : ∃ f, fuel = f + 1 := ⟨fuel - 1, by omega⟩
      rw [toLowerLoop]
      simp only [List.isEmpty_cons, if_false, Bool.false_eq_true]
      by_cases hb : b < 128
      · rw [decodeRune_ascii vs hb]
        simp only [List.drop_succ_cons, List.drop_zero]
        have htl : toLowerRune b < 128 := by
          unfold toLowerRune
          split_ifs <;> omega
        rw [runeEncode_ascii htl]
        cases w with
        | nil => simp [caseInsensitiveEqAscii]
        | cons c ws =>
          obtain ⟨hc1, hc2, -, -⟩ := hw c (List.mem_cons_self c ws)
          have hkey : (toLowerRune b = c) ↔
              (b = c ∨ (0x61 ≤ c ∧ c ≤ 0x7A ∧ b + 32 = c)) := by
            unfold toLowerRune
            split_ifs <;> omega
          have hihs := ih f (by omega) vs ws
            (fun x hx => hw x (List.mem_cons_of_mem c hx)) (by simp at hlen; omega)
          simp only [List.cons_append, List.nil_append, List.cons.injEq,
            caseInsensitiveEqAscii, Bool.and_eq_true, decide_eq_true_eq]
          rw [hkey, hihs]
      · have hr : 0x80 ≤ (decodeRune (b :: vs)).1 := decodeRune_high vs (by omega)
        cases w with
        | nil =>
          apply iff_of_false
          · intro heq
            rcases henc : runeEncode (toLowerRune (decodeRune (b :: vs)).1) with _ | ⟨h0, t0⟩
            · exact runeEncode_ne_nil _ henc
            · rw [henc] at heq
              exact absurd heq (by simp)
          · simp [caseInsensitiveEqAscii]
        | cons c ws =>
          obtain ⟨hc1, hc2, hc3, hc4⟩ := hw c (List.mem_cons_self c ws)
          apply iff_of_false
          · intro heq
            by_cases h130 : (decodeRune (b :: vs)).1 = 0x130
            · rw [h130, show toLowerRune 0x130 = 0x69 from by decide,
                show runeEncode 0x69 = [0x69] from by decide] at heq
              simp at heq
              exact hc3 heq.1.symm
            · by_cases h212A : (decodeRune (b :: vs)).1 = 0x212A
              · rw [h212A, show toLowerRune 0x212A = 0x6B from by decide,
                  show runeEncode 0x6B = [0x6B] from by decide] at heq
                simp at heq
                exact hc4 heq.1.symm
              · rw [toLowerRune_high hr h130 h212A] at heq
                obtain ⟨h0, t0, henc, hge⟩ := runeEncode_head_high hr
                rw [henc] at heq
                simp at heq
                omega
          · simp only [caseInsensitiveEqAscii, Bool.and_eq_true, decide_eq_true_eq]
            rintro ⟨h1, -⟩
            rcases h1 with h1 | ⟨-, -, h1⟩ <;> omega

/-- Claim C9: BoolValue returns true when the stored string value equals
"true" case-insensitively, false when it equals "false" case-insensitively,
and an error stating the value is not a valid boolean for every other
string; the result is a function of the stored string value alone. -/
theorem c9_boolvalue (c : CondV) :
    (condBoolValue c = .ok true ↔
      caseInsensitiveEqAscii c.stringValue (ascii "true") = true) ∧
    (condBoolValue c = .ok false ↔
      caseInsensitiveEqAscii c.stringValue (ascii "false") = true) ∧
    (caseInsensitiveEqAscii c.stringValue (ascii "true") = false →
      caseInsensitiveEqAscii c.stringValue (ascii "false") = false →
      condBoolValue c = .error (c.stringValue ++ ascii " is not a valid boolean")) ∧
    (∀ c' : CondV, c.stringValue = c'.stringValue → condBoolValue c = condBoolValue c') := by
  have htrue : stringsToLower c.stringValue = ascii "true" ↔
      caseInsensitiveEqAscii c.stringValue (ascii "true") = true := by
    unfold stringsToLower
    exact toLowerLoop_caseIns _ _ _ (by decide) (by omega)
  have hfalse : stringsToLower c.stringValue = ascii "false" ↔
      caseInsensitiveEqAscii c.stringValue (ascii "false") = true := by
    unfold stringsToLower
    exact toLowerLoop_caseIns _ _ _ (by decide) (by omega)
  refine ⟨?_, ?_, ?_, ?_⟩
  · simp only [condBoolValue]
    by_cases ht : stringsToLower c.stringValue = ascii "true"
    · rw [if_pos ht]
      exact ⟨fun _ => htrue.mp ht, fun _ => rfl⟩
    · rw [if_neg ht]
      have hnc : ¬ caseInsensitiveEqAscii c.stringValue (ascii "true") = true :=
        fun h => ht (htrue.mpr h)
      by_cases hf : stringsToLower c.stringValue = ascii "false"
      · rw [if_pos hf]
        exact iff_of_false (by simp) hnc
      · rw [if_neg hf]
        exact iff_of_false (by simp) hnc
  · simp only [condBoolValue]
    by_cases ht : stringsToLower c.stringValue = ascii "true"
    · rw [if_pos ht]
      have hnc : ¬ caseInsensitiveEqAscii c.stringValue (ascii "false") = true := by
        intro h
        have := hfalse.mpr h
        rw [ht] at this
        exact absurd this (by decide)
      exact iff_of_false (by simp) hnc
    · rw [if_neg ht]
      by_cases hf : stringsToLower c.stringValue = ascii "false"
      · rw [if_pos hf]
        exact ⟨fun _ => hfalse.mp hf, fun _ => rfl⟩
      · rw [if_neg hf]
        exact iff_of_false (by simp) (fun h => hf (hfalse.mpr h))
  · intro h1 h2
    simp only [condBoolValue]
    rw [if_neg (fun h => by rw [htrue.mp h] at h1; exact absurd h1 (by decide)),
      if_neg (fun h => by rw [hfalse.mp h] at h2; exact absurd h2 (by decide))]
  · intro c' heq
    simp only [condBoolValue, heq]

/-- Witness for C9: BoolValue evaluated at the stored values tRue, faLSE
and 42. -/
theorem c9_boolvalue_witness :
    condBoolValue ⟨[], [], [], ascii "tRue", none, none⟩ = .ok true ∧
    condBoolValue ⟨[], [], [], ascii "faLSE", none, none⟩ = .ok false ∧
    condBoolValue ⟨[], [], [], ascii "42", none, none⟩ =
      .error (ascii "42" ++ ascii " is not a valid boolean") :=
  ⟨(c9_boolvalue _).1.mpr (by decide), (c9_boolvalue _).2.1.mpr (by decide),
    (c9_boolvalue _).2.2.1 (by decide) (by decide)⟩
